import Mathlib

/-!
Verification development for `src/bin/generate_points.py`.

The script is a single linear pipeline: seed numpy's generator with 1701,
draw `NUM_POINTS × 3` uniform samples in `[0,1)`, scale every sample by
`MAX_COORDINATE`, write the points to `./data/points.txt` with
`np.savetxt(..., fmt='%.4f')` (one point per line, space separated, each
value printed in fixed-point notation with exactly 4 fractional digits),
and finally print `"<NUM_POINTS> points are written to <FILE_PATH>"`.

Real arithmetic is embedded over `ℚ`.  numpy's seeded generator is library
code that does not live in this repository; following the spec it is
modelled as a deterministic stream of uniform samples in `[0,1)` that is a
pure function of the seed.  The `%.4f` formatting is embedded exactly:
round the value to the nearest multiple of `10⁻⁴` (ties to even, as the C
library does for exactly representable halves) and print
`<digits>.<4 digits>`.  The file system is modelled by a `World` giving
writability of directories, so that the I/O failure claims are statable.
-/

namespace PointGen

/-- The constant `MAX_COORDINATE = 100000` from the script (the scale). -/
def MAX_COORDINATE : ℚ := 100000

/-- The constant `NUM_POINTS = 100000` from the script. -/
def NUM_POINTS : Nat := 100000

/-- The constant `FILE_PATH = './data/points.txt'` from the script. -/
def FILE_PATH : String := "./data/points.txt"

/-- The seed `1701` passed to `np.random.seed`. -/
def SEED : Nat := 1701

/-- `true` iff the character is an ASCII decimal digit. -/
def isDig (c : Char) : Bool := 48 ≤ c.toNat && c.toNat ≤ 57

/-- The ASCII digit character for a value `0 ≤ d ≤ 9`. -/
def digitChar (d : Nat) : Char :=
  match d with
  | 0 => '0' | 1 => '1' | 2 => '2' | 3 => '3' | 4 => '4'
  | 5 => '5' | 6 => '6' | 7 => '7' | 8 => '8' | _ => '9'

/-- The numeric value of an ASCII digit character. -/
def dval (c : Char) : Nat := c.toNat - 48

/-- The number denoted by a list of decimal digit characters (most
significant first). -/
def natFromDigits (l : List Char) : Nat :=
  l.foldl (fun a c => 10 * a + dval c) 0

/-- Decimal digit characters of a number, most significant first, prepended
to `acc`; the extra fuel argument (any value `≥ n` is enough) makes the
recursion structural, so that it evaluates inside the kernel. -/
def natToDigitsGo : Nat → Nat → List Char → List Char
  | 0, _, acc => acc
  | _ + 1, 0, acc => acc
  | fuel + 1, n + 1, acc =>
    natToDigitsGo fuel ((n + 1) / 10) (digitChar ((n + 1) % 10) :: acc)

/-- Decimal digit characters of a number, most significant first, with the
usual convention that `0` prints as `"0"`. -/
def natToDigits (n : Nat) : List Char :=
  if n = 0 then ['0'] else natToDigitsGo n n []

/-- The decimal digits of `k < 10000`, padded on the left with zeros to
exactly 4 characters (the fractional part printed by `%.4f`). -/
def pad4 (k : Nat) : List Char :=
  List.replicate (4 - (natToDigits k).length) '0' ++ natToDigits k

/-- Round a rational to the nearest integer, ties to even: the rounding
performed by the C library when `%.4f` meets an exactly representable
half-way value. -/
def rhe (x : ℚ) : ℤ :=
  if x - ⌊x⌋ < 1 / 2 then ⌊x⌋
  else if 1 / 2 < x - ⌊x⌋ then ⌊x⌋ + 1
  else if ⌊x⌋ % 2 = 0 then ⌊x⌋ else ⌊x⌋ + 1

/-- The text printed for the nonnegative integer `n` of "ten-thousandths":
`n = 1234567` prints as `"123.4567"`. -/
def fmt4Mag (n : Nat) : List Char :=
  natToDigits (n / 10000) ++ '.' :: pad4 (n % 10000)

/-- `fmt='%.4f'` applied to a value `v`: round `v` to the nearest multiple
of `10⁻⁴` and print it in fixed-point notation with exactly 4 fractional
digits.  The script only ever formats nonnegative values, and this
embedding is faithful exactly on those. -/
def fmt4 (v : ℚ) : List Char := fmt4Mag (rhe (v * 10000)).toNat

/-- Parse a token of the exact shape `<digits>.<4 digits>` back into a
rational; any other shape (empty integer part, a sign, an exponent, more
or fewer than 4 fractional digits, stray characters) is rejected. -/
def parseFixed4 (l : List Char) : Option ℚ :=
  if l.takeWhile isDig ≠ [] ∧ (l.dropWhile isDig).length = 5 ∧
      (l.dropWhile isDig).take 1 = ['.'] ∧ ((l.dropWhile isDig).drop 1).all isDig then
    some ((natFromDigits (l.takeWhile isDig) : ℚ) +
      (natFromDigits ((l.dropWhile isDig).drop 1) : ℚ) / 10000)
  else none

/-- Split a character list at every occurrence of `sep`; a trailing
separator does not open an empty final field, so a newline-terminated file
splits into exactly its lines. -/
def splitCh (sep : Char) : List Char → List (List Char)
  | [] => []
  | c :: rest =>
    if c = sep then [] :: splitCh sep rest
    else
      match splitCh sep rest with
      | [] => [[c]]
      | l :: ls => (c :: l) :: ls

/-- The lines of a text, in order. -/
def splitNl (l : List Char) : List (List Char) := splitCh '\n' l

/-- One linear-congruential step, truncated to 32 bits. -/
def lcg (s : Nat) : Nat := (1664525 * s + 1013904223) % 4294967296

/-- A deterministic stream of `n` uniform samples in `[0,1)` from state
`s`, as rationals `k / 2³²`. -/
def streamAux : Nat → Nat → List ℚ
  | _, 0 => []
  | s, k + 1 => ((lcg s : Nat) : ℚ) / 4294967296 :: streamAux (lcg s) k

/-- Modelled from the spec: `np.random.rand`'s seeded uniform sampler is
numpy library code, not part of this repository; per the spec it is "a
pseudorandom generator initialized with seed `S`" drawing "independent
uniform samples in `[0,1)`" such that the same seed reproduces the same
output.  It is modelled as a deterministic stream (`streamAux`) that is a
pure function of the seed. -/
def randSamples (seed n : Nat) : List ℚ := streamAux seed n

/-- Arrange a flat sample list into consecutive rows of 3, as
`np.random.rand(N, 3)` lays its `N * 3` samples out row-major. -/
def group3 : List ℚ → List (ℚ × ℚ × ℚ)
  | a :: b :: c :: rest => (a, b, c) :: group3 rest
  | _ => []

/-- The flat sample list of one row. -/
def tripleList (p : ℚ × ℚ × ℚ) : List ℚ := [p.1, p.2.1, p.2.2]

/-- `points = np.random.rand(n, 3) * m` from the script: `n` rows of 3
samples, every sample multiplied by `m`. -/
def points (seed n : Nat) (m : ℚ) : List (ℚ × ℚ × ℚ) :=
  (group3 (randSamples seed (n * 3))).map
    (fun p => (p.1 * m, p.2.1 * m, p.2.2 * m))

/-- One output line's text (without the newline): the three coordinates
formatted by `%.4f` and joined by single spaces, `np.savetxt`'s default
delimiter. -/
def renderPoint (p : ℚ × ℚ × ℚ) : List Char :=
  fmt4 p.1 ++ ' ' :: (fmt4 p.2.1 ++ ' ' :: fmt4 p.2.2)

/-- One output record: the line text terminated by `'\n'`, `np.savetxt`'s
default newline. -/
def renderLine (p : ℚ × ℚ × ℚ) : List Char := renderPoint p ++ ['\n']

/-- The full text `np.savetxt` writes for a point list: the concatenation
of the newline-terminated records, with no header and no footer. -/
def savetxtContent (ps : List (ℚ × ℚ × ℚ)) : List Char :=
  (ps.map renderLine).flatten

/-- Modelled from the spec: the ambient file system, which is not part of
this repository.  Only the fact the spec's failure conditions depend on is
kept: whether a given directory exists and is writable. -/
structure World where
  writable : String → Bool

/-- Modelled from the spec: the destination's parent directory — the path
up to (excluding) its last `/`. -/
def parentDir (p : String) : String :=
  String.mk (((p.data.reverse.dropWhile (fun c => c != '/')).drop 1).reverse)

/-- The one error class of the program: an I/O failure naming the
destination directory. -/
inductive IOErr where
  | ioError (dir : String)

/-- Modelled from the spec: `np.savetxt`'s I/O behaviour (numpy library
code, outside this repository).  Per the spec it "fails with an I/O error
if the destination path's parent directory does not exist or is not
writable", and otherwise writes the full content. -/
def savetxtWrite (w : World) (path : String) (content : List Char) :
    Except IOErr (List Char) :=
  if w.writable (parentDir path) = true then Except.ok content
  else Except.error (IOErr.ioError (parentDir path))

/-- The observable outcome of one run: the file written (if any), what was
printed to standard output, and the process exit code. -/
structure RunResult where
  fileWritten : Option (List Char)
  stdout : String
  exitCode : Nat

/-- The script's `__main__` block, with the point count `n` as a
parameter: generate the points, write them with `np.savetxt`, and only
then print the confirmation line.  An uncaught I/O error propagates to
the process boundary: nothing is printed and the exit code is nonzero. -/
def runGen (w : World) (n : Nat) : RunResult :=
  match savetxtWrite w FILE_PATH (savetxtContent (points SEED n MAX_COORDINATE)) with
  | Except.error _ => ⟨none, "", 1⟩
  | Except.ok c =>
    ⟨some c, Nat.repr n ++ " points are written to " ++ FILE_PATH ++ "\n", 0⟩

/-- The script as shipped: `runGen` at the fixed constant `NUM_POINTS`. -/
def runMain (w : World) : RunResult := runGen w NUM_POINTS

/-- A world in which every directory is writable. -/
def wAll : World := ⟨fun _ => true⟩

/-- A world in which no directory is writable. -/
def wNone : World := ⟨fun _ => false⟩

attribute [local semireducible] Rat.add Rat.mul Rat.inv Rat.sub

lemma dval_digitChar (d : Nat) (h : d < 10) : dval (digitChar d) = d := by
  interval_cases d <;> rfl

lemma isDig_digitChar (d : Nat) (h : d < 10) : isDig (digitChar d) = true := by
  interval_cases d <;> rfl

lemma natFromDigits_go (l : List Char) (v : Nat) :
    l.foldl (fun a c => 10 * a + dval c) v =
      v * 10 ^ l.length + l.foldl (fun a c => 10 * a + dval c) 0 := by
  induction l generalizing v with
  | nil => simp
  | cons c t ih =>
    simp only [List.foldl_cons, List.length_cons]
    rw [ih (10 * v + dval c), ih (10 * 0 + dval c)]
    ring

lemma natFromDigits_append (a b : List Char) :
    natFromDigits (a ++ b) = natFromDigits a * 10 ^ b.length + natFromDigits b := by
  unfold natFromDigits
  rw [List.foldl_append, natFromDigits_go]

lemma natToDigitsGo_acc (fuel : Nat) :
    ∀ n acc, natToDigitsGo fuel n acc = natToDigitsGo fuel n [] ++ acc := by
  induction fuel with
  | zero => intro n acc; simp [natToDigitsGo]
  | succ fuel ih =>
    intro n acc
    match n with
    | 0 => simp [natToDigitsGo]
    | m + 1 =>
      simp only [natToDigitsGo]
      rw [ih ((m + 1) / 10) (digitChar ((m + 1) % 10) :: acc),
          ih ((m + 1) / 10) [digitChar ((m + 1) % 10)]]
      simp

lemma natFromDigits_natToDigitsGo (fuel : Nat) :
    ∀ n, n ≤ fuel → natFromDigits (natToDigitsGo fuel n []) = n := by
  induction fuel with
  | zero =>
    intro n h
    interval_cases n
    rfl
  | succ fuel ih =>
    intro n h
    match n with
    | 0 => rfl
    | m + 1 =>
      have hq : (m + 1) / 10 ≤ fuel := by
        have := Nat.div_lt_self (Nat.succ_pos m) (by norm_num : 1 < 10)
        omega
      have hv : dval (digitChar ((m + 1) % 10)) = (m + 1) % 10 :=
        dval_digitChar _ (Nat.mod_lt _ (by norm_num))
      simp only [natToDigitsGo]
      rw [natToDigitsGo_acc, natFromDigits_append, ih _ hq]
      have h1 : natFromDigits [digitChar ((m + 1) % 10)] = (m + 1) % 10 := by
        simp [natFromDigits, hv]
      rw [h1]
      simp only [List.length_cons, List.length_nil, pow_one]
      omega

lemma natToDigitsGo_all_dig (fuel : Nat) :
    ∀ n, ∀ c ∈ natToDigitsGo fuel n [], isDig c = true := by
  induction fuel with
  | zero => intro n c hc; simp [natToDigitsGo] at hc
  | succ fuel ih =>
    intro n c hc
    cases n with
    | zero => simp [natToDigitsGo] at hc
    | succ m =>
      rw [show natToDigitsGo (fuel + 1) (m + 1) [] =
            natToDigitsGo fuel ((m + 1) / 10) [digitChar ((m + 1) % 10)] from rfl,
          natToDigitsGo_acc] at hc
      rcases List.mem_append.mp hc with h | h
      · exact ih _ c h
      · rcases List.mem_singleton.mp h with rfl
        exact isDig_digitChar _ (Nat.mod_lt _ (by norm_num))

lemma natToDigitsGo_ne_nil (fuel m : Nat) :
    natToDigitsGo (fuel + 1) (m + 1) [] ≠ [] := by
  simp only [natToDigitsGo]
  rw [natToDigitsGo_acc]
  simp

lemma natToDigitsGo_length (fuel : Nat) :
    ∀ n k, n < 10 ^ k → n ≤ fuel → (natToDigitsGo fuel n []).length ≤ k := by
  induction fuel with
  | zero =>
    intro n k h hf
    interval_cases n
    simp [natToDigitsGo]
  | succ fuel ih =>
    intro n k h hf
    match n with
    | 0 => simp [natToDigitsGo]
    | m + 1 =>
      match k with
      | 0 => norm_num at h
      | k + 1 =>
        have hq10 : (m + 1) / 10 < 10 ^ k := by
          rw [Nat.div_lt_iff_lt_mul (by norm_num : 0 < 10)]
          calc m + 1 < 10 ^ (k + 1) := h
          _ = 10 ^ k * 10 := by rw [pow_succ]
        have hqf : (m + 1) / 10 ≤ fuel := by
          have := Nat.div_lt_self (Nat.succ_pos m) (by norm_num : 1 < 10)
          omega
        simp only [natToDigitsGo]
        rw [natToDigitsGo_acc]
        simp only [List.length_append, List.length_cons, List.length_nil]
        have := ih _ _ hq10 hqf
        omega

lemma natFromDigits_natToDigits (n : Nat) :
    natFromDigits (natToDigits n) = n := by
  unfold natToDigits
  split
  · next h => rw [h]; rfl
  · exact natFromDigits_natToDigitsGo n n le_rfl

lemma natToDigits_all_dig (n : Nat) : ∀ c ∈ natToDigits n, isDig c = true := by
  unfold natToDigits
  split
  · intro c hc
    rcases List.mem_singleton.mp hc with rfl
    rfl
  · exact natToDigitsGo_all_dig n n

lemma natToDigits_ne_nil (n : Nat) : natToDigits n ≠ [] := by
  unfold natToDigits
  split
  · simp
  · next h =>
    obtain ⟨m, rfl⟩ := Nat.exists_eq_succ_of_ne_zero h
    exact natToDigitsGo_ne_nil m m

lemma natToDigits_length_le_four (k : Nat) (h : k < 10000) :
    (natToDigits k).length ≤ 4 := by
  unfold natToDigits
  split
  · simp
  · exact natToDigitsGo_length k k 4 (by norm_num; omega) le_rfl

lemma pad4_length (k : Nat) (h : k < 10000) : (pad4 k).length = 4 := by
  unfold pad4
  have := natToDigits_length_le_four k h
  simp only [List.length_append, List.length_replicate]
  omega

lemma pad4_all_dig (k : Nat) : ∀ c ∈ pad4 k, isDig c = true := by
  unfold pad4
  intro c hc
  rcases List.mem_append.mp hc with h | h
  · rcases List.eq_of_mem_replicate h with rfl
    rfl
  · exact natToDigits_all_dig k c h

lemma natFromDigits_replicate (j : Nat) :
    natFromDigits (List.replicate j '0') = 0 := by
  induction j with
  | zero => rfl
  | succ j ih =>
    have h0 : dval '0' = 0 := rfl
    simpa [natFromDigits, List.replicate_succ, h0] using ih

lemma natFromDigits_pad4 (k : Nat) : natFromDigits (pad4 k) = k := by
  unfold pad4
  rw [natFromDigits_append, natFromDigits_replicate, natFromDigits_natToDigits]
  simp

lemma takeWhile_app (p : Char → Bool) (a : List Char) (c : Char) (r : List Char)
    (ha : ∀ x ∈ a, p x = true) (hc : p c = false) :
    (a ++ c :: r).takeWhile p = a := by
  induction a with
  | nil => simp [List.takeWhile_cons, hc]
  | cons x t ih =>
    have hx : p x = true := ha x (by simp)
    simp only [List.cons_append, List.takeWhile_cons, hx]
    rw [ih (fun y hy => ha y (by simp [hy]))]
    simp

lemma dropWhile_app (p : Char → Bool) (a : List Char) (c : Char) (r : List Char)
    (ha : ∀ x ∈ a, p x = true) (hc : p c = false) :
    (a ++ c :: r).dropWhile p = c :: r := by
  induction a with
  | nil => simp [List.dropWhile_cons, hc]
  | cons x t ih =>
    have hx : p x = true := ha x (by simp)
    simp only [List.cons_append, List.dropWhile_cons, hx]
    exact ih (fun y hy => ha y (by simp [hy]))

lemma parse_fmt4Mag (n : Nat) :
    parseFixed4 (fmt4Mag n) = some ((n : ℚ) / 10000) := by
  have hdot : isDig '.' = false := rfl
  have hmod : n % 10000 < 10000 := Nat.mod_lt _ (by norm_num)
  have htw : (fmt4Mag n).takeWhile isDig = natToDigits (n / 10000) :=
    takeWhile_app isDig _ '.' _ (natToDigits_all_dig _) hdot
  have hdw : (fmt4Mag n).dropWhile isDig = '.' :: pad4 (n % 10000) :=
    dropWhile_app isDig _ '.' _ (natToDigits_all_dig _) hdot
  unfold parseFixed4
  rw [htw, hdw]
  rw [if_pos]
  · rw [natFromDigits_natToDigits]
    have hfd : natFromDigits (('.' :: pad4 (n % 10000)).drop 1) = n % 10000 := by
      simp only [List.drop_one, List.tail_cons]
      exact natFromDigits_pad4 _
    rw [hfd]
    congr 1
    have hsplit : 10000 * (n / 10000) + n % 10000 = n := Nat.div_add_mod n 10000
    have hq : ((10000 * (n / 10000) + n % 10000 : Nat) : ℚ) = (n : ℚ) := by
      exact_mod_cast hsplit
    push_cast at hq
    field_simp
    linarith
  · refine ⟨natToDigits_ne_nil _, ?_, rfl, ?_⟩
    · simp [pad4_length _ hmod]
    · simp only [List.drop_one, List.tail_cons, List.all_eq_true]
      intro c hc
      simpa using pad4_all_dig _ c hc

lemma rhe_nonneg (x : ℚ) (h : 0 ≤ x) : 0 ≤ rhe x := by
  have hf : 0 ≤ ⌊x⌋ := Int.floor_nonneg.mpr h
  unfold rhe
  split_ifs <;> omega

lemma rhe_le (x : ℚ) : (rhe x : ℚ) ≤ x + 1 / 2 := by
  have h1 : (⌊x⌋ : ℚ) ≤ x := Int.floor_le x
  have h2 : x < ⌊x⌋ + 1 := Int.lt_floor_add_one x
  unfold rhe
  split_ifs <;> push_cast <;> linarith

lemma rhe_ge (x : ℚ) : x - 1 / 2 ≤ (rhe x : ℚ) := by
  have h1 : (⌊x⌋ : ℚ) ≤ x := Int.floor_le x
  have h2 : x < ⌊x⌋ + 1 := Int.lt_floor_add_one x
  unfold rhe
  split_ifs <;> push_cast <;> linarith

lemma parse_fmt4 (v : ℚ) (h : 0 ≤ v) :
    parseFixed4 (fmt4 v) = some ((rhe (v * 10000) : ℚ) / 10000) := by
  unfold fmt4
  rw [parse_fmt4Mag]
  have h0 : 0 ≤ rhe (v * 10000) := rhe_nonneg _ (by positivity)
  have : ((rhe (v * 10000)).toNat : ℤ) = rhe (v * 10000) := Int.toNat_of_nonneg h0
  have h1 : ((rhe (v * 10000)).toNat : ℚ) = ((rhe (v * 10000) : ℤ) : ℚ) := by
    exact_mod_cast this
  rw [h1]

lemma parse_fmt4_isSome (v : ℚ) : (parseFixed4 (fmt4 v)).isSome = true := by
  unfold fmt4
  rw [parse_fmt4Mag]
  rfl

lemma fmt4Mag_chars (n : Nat) :
    ∀ c ∈ fmt4Mag n, isDig c = true ∨ c = '.' := by
  unfold fmt4Mag
  intro c hc
  rcases List.mem_append.mp hc with h | h
  · exact Or.inl (natToDigits_all_dig _ c h)
  · rcases List.mem_cons.mp h with rfl | h
    · exact Or.inr rfl
    · exact Or.inl (pad4_all_dig _ c h)

lemma fmt4_chars (v : ℚ) : ∀ c ∈ fmt4 v, isDig c = true ∨ c = '.' :=
  fmt4Mag_chars _

lemma fmt4_ne_nil (v : ℚ) : fmt4 v ≠ [] := by
  unfold fmt4 fmt4Mag
  simp [natToDigits_ne_nil]

lemma fmt4_ne_nl (v : ℚ) : ∀ c ∈ fmt4 v, c ≠ '\n' := by
  intro c hc
  rcases fmt4_chars v c hc with h | rfl
  · intro he
    rw [he] at h
    exact absurd h (by decide)
  · decide

lemma fmt4_ne_sp (v : ℚ) : ∀ c ∈ fmt4 v, c ≠ ' ' := by
  intro c hc
  rcases fmt4_chars v c hc with h | rfl
  · intro he
    rw [he] at h
    exact absurd h (by decide)
  · decide

lemma renderPoint_no_nl (p : ℚ × ℚ × ℚ) : ∀ c ∈ renderPoint p, c ≠ '\n' := by
  unfold renderPoint
  intro c hc
  simp only [List.mem_append, List.mem_cons] at hc
  rcases hc with h | rfl | h | rfl | h
  · exact fmt4_ne_nl _ c h
  · decide
  · exact fmt4_ne_nl _ c h
  · decide
  · exact fmt4_ne_nl _ c h

lemma splitCh_append_sep (sep : Char) (l rest : List Char)
    (h : ∀ c ∈ l, c ≠ sep) :
    splitCh sep (l ++ sep :: rest) = l :: splitCh sep rest := by
  induction l with
  | nil => simp [splitCh]
  | cons c t ih =>
    have hc : c ≠ sep := h c (by simp)
    simp only [List.cons_append, splitCh, if_neg hc, List.append_eq]
    rw [ih (fun y hy => h y (by simp [hy]))]

lemma splitCh_no_sep (sep : Char) (l : List Char)
    (h : ∀ c ∈ l, c ≠ sep) (hne : l ≠ []) :
    splitCh sep l = [l] := by
  induction l with
  | nil => exact absurd rfl hne
  | cons c t ih =>
    have hc : c ≠ sep := h c (by simp)
    simp only [splitCh, if_neg hc]
    match t, ih with
    | [], _ => simp [splitCh]
    | x :: t, ih =>
      rw [ih (fun y hy => h y (by simp [hy])) (by simp)]

lemma splitNl_savetxt (ps : List (ℚ × ℚ × ℚ)) :
    splitNl (savetxtContent ps) = ps.map renderPoint := by
  induction ps with
  | nil => rfl
  | cons p ps ih =>
    have h1 : savetxtContent (p :: ps) = renderPoint p ++ '\n' :: savetxtContent ps := by
      simp [savetxtContent, renderLine]
    unfold splitNl at *
    rw [h1, splitCh_append_sep '\n' _ _ (renderPoint_no_nl p), ih]
    simp

lemma splitCh_renderPoint (p : ℚ × ℚ × ℚ) :
    splitCh ' ' (renderPoint p) = [fmt4 p.1, fmt4 p.2.1, fmt4 p.2.2] := by
  unfold renderPoint
  rw [splitCh_append_sep ' ' _ _ (fmt4_ne_sp _),
      splitCh_append_sep ' ' _ _ (fmt4_ne_sp _),
      splitCh_no_sep ' ' _ (fmt4_ne_sp _) (fmt4_ne_nil _)]

lemma streamAux_length (s n : Nat) : (streamAux s n).length = n := by
  induction n generalizing s with
  | zero => rfl
  | succ n ih => simp [streamAux, ih]

lemma streamAux_mem (s n : Nat) : ∀ u ∈ streamAux s n, 0 ≤ u ∧ u < 1 := by
  induction n generalizing s with
  | zero => simp [streamAux]
  | succ n ih =>
    intro u hu
    rcases List.mem_cons.mp hu with rfl | hu
    · constructor
      · positivity
      · rw [div_lt_one (by norm_num)]
        have hlt : lcg s < 4294967296 := Nat.mod_lt _ (by norm_num)
        exact_mod_cast hlt
    · exact ih _ u hu

lemma group3_length (n : Nat) :
    ∀ l : List ℚ, l.length = 3 * n → (group3 l).length = n := by
  induction n with
  | zero =>
    intro l hl
    rcases List.length_eq_zero.mp hl with rfl
    rfl
  | succ n ih =>
    intro l hl
    match l with
    | [] => simp at hl
    | [a] => simp at hl; omega
    | [a, b] => simp at hl; omega
    | a :: b :: c :: r =>
      simp only [List.length_cons] at hl
      have hr : r.length = 3 * n := by omega
      simp [group3, ih r hr]

lemma group3_flatten (n : Nat) :
    ∀ l : List ℚ, l.length = 3 * n → ((group3 l).map tripleList).flatten = l := by
  induction n with
  | zero =>
    intro l hl
    rcases List.length_eq_zero.mp hl with rfl
    rfl
  | succ n ih =>
    intro l hl
    match l with
    | [] => simp at hl
    | [a] => simp at hl; omega
    | [a, b] => simp at hl; omega
    | a :: b :: c :: r =>
      simp only [List.length_cons] at hl
      have hr : r.length = 3 * n := by omega
      simp [group3, tripleList, ih r hr]

lemma points_length (seed n : Nat) (m : ℚ) : (points seed n m).length = n := by
  unfold points
  rw [List.length_map]
  exact group3_length n _ (by rw [randSamples, streamAux_length]; ring)

/-- C1 (counterexample): the claim "every parsed coordinate is `< MAX_COORDINATE`
for any uniform sample in `[0,1)`" is false: the sample
`u = 2499999999/2500000000 < 1` scales to `99999.999996`, which `%.4f`
rounds up to the written token `100000.0000`, parsing back to exactly
`MAX_COORDINATE`. -/
theorem range_invariant_counterexample :
    ¬ (∀ u : ℚ, 0 ≤ u → u < 1 → ∀ r : ℚ,
        parseFixed4 (fmt4 (u * MAX_COORDINATE)) = some r →
        0 ≤ r ∧ r < MAX_COORDINATE) := by
  intro h
  have hc := h (2499999999 / 2500000000) (by norm_num) (by norm_num) 100000 (by decide)
  have h2 := hc.2
  rw [show MAX_COORDINATE = (100000 : ℚ) from rfl] at h2
  exact absurd h2 (by norm_num)

/-- C1 (amended): every generated coordinate `u * MAX_COORDINATE` for a
uniform sample `u ∈ [0,1)` lies in `[0, MAX_COORDINATE)`, and the written,
4-decimal-rounded coordinate parses back to a value in
`[0, MAX_COORDINATE]`; it is strictly below `MAX_COORDINATE` whenever the
sample is below `1 - 5·10⁻¹⁰` (i.e. `2000000000 * u < 1999999999`), but a
sample at or above that threshold rounds to exactly `MAX_COORDINATE`. -/
theorem range_invariant_amended (u : ℚ) (h0 : 0 ≤ u) (h1 : u < 1) :
    0 ≤ u * MAX_COORDINATE ∧ u * MAX_COORDINATE < MAX_COORDINATE ∧
    ∃ r : ℚ, parseFixed4 (fmt4 (u * MAX_COORDINATE)) = some r ∧ 0 ≤ r ∧
      r ≤ MAX_COORDINATE ∧ (2000000000 * u < 1999999999 → r < MAX_COORDINATE) := by
  have hM : MAX_COORDINATE = (100000 : ℚ) := rfl
  have hv0 : 0 ≤ u * MAX_COORDINATE := by rw [hM]; positivity
  have hv1 : u * MAX_COORDINATE < MAX_COORDINATE := by rw [hM]; nlinarith
  have hle := rhe_le (u * MAX_COORDINATE * 10000)
  have hnn := rhe_nonneg (u * MAX_COORDINATE * 10000) (by rw [hM]; positivity)
  have hnnq : (0 : ℚ) ≤ (rhe (u * MAX_COORDINATE * 10000) : ℚ) := by exact_mod_cast hnn
  rw [hM] at hle ⊢
  refine ⟨hv0, by rw [hM] at hv1; exact hv1, _, parse_fmt4 _ (by positivity), ?_, ?_, ?_⟩
  · exact div_nonneg (by rw [hM] at hnnq; exact hnnq) (by norm_num)
  · have hZ : rhe (u * 100000 * 10000) ≤ 1000000000 := by
      by_contra hcon
      push_neg at hcon
      have hq : (1000000001 : ℚ) ≤ (rhe (u * 100000 * 10000) : ℚ) := by
        exact_mod_cast hcon
      linarith
    have hq : ((rhe (u * 100000 * 10000) : ℤ) : ℚ) ≤ 1000000000 := by exact_mod_cast hZ
    linarith
  · intro h2
    have hZ : rhe (u * 100000 * 10000) ≤ 999999999 := by
      by_contra hcon
      push_neg at hcon
      have hq : (1000000000 : ℚ) ≤ (rhe (u * 100000 * 10000) : ℚ) := by
        exact_mod_cast hcon
      linarith
    have hq : ((rhe (u * 100000 * 10000) : ℤ) : ℚ) ≤ 999999999 := by exact_mod_cast hZ
    linarith

/-- C1 witness: the amended statement at the concrete sample `u = 1/2`. -/
theorem range_invariant_amended_witness :
    0 ≤ (1 / 2 : ℚ) ∧ (1 / 2 : ℚ) < 1 ∧
    (0 ≤ (1 / 2 : ℚ) * MAX_COORDINATE ∧
      (1 / 2 : ℚ) * MAX_COORDINATE < MAX_COORDINATE ∧
      ∃ r : ℚ, parseFixed4 (fmt4 ((1 / 2 : ℚ) * MAX_COORDINATE)) = some r ∧
        0 ≤ r ∧ r ≤ MAX_COORDINATE ∧
        (2000000000 * (1 / 2 : ℚ) < 1999999999 → r < MAX_COORDINATE)) :=
  ⟨by norm_num, by norm_num,
    range_invariant_amended (1 / 2) (by norm_num) (by norm_num)⟩

/-- C10: for every generated coordinate `v ∈ [0, MAX_COORDINATE)`, the
value written by `%.4f` parses back to a rational that is an exact multiple
of `10⁻⁴` and differs from `v` by at most `5·10⁻⁵`: serialization rounds
to the nearest multiple of `10⁻⁴`. -/
theorem serialization_rounding (v : ℚ) (h0 : 0 ≤ v) (hv : v < MAX_COORDINATE) :
    ∃ r : ℚ, parseFixed4 (fmt4 v) = some r ∧ |r - v| ≤ 5 / 100000 ∧
      ∃ k : ℤ, r = (k : ℚ) / 10000 := by
  refine ⟨_, parse_fmt4 v h0, ?_, ⟨rhe (v * 10000), rfl⟩⟩
  have hle := rhe_le (v * 10000)
  have hge := rhe_ge (v * 10000)
  rw [abs_le]
  constructor <;> linarith

/-- C10 witness: the rounding bound at the concrete coordinate `v = 1/3`. -/
theorem serialization_rounding_witness :
    0 ≤ (1 / 3 : ℚ) ∧ (1 / 3 : ℚ) < MAX_COORDINATE ∧
    (∃ r : ℚ, parseFixed4 (fmt4 (1 / 3 : ℚ)) = some r ∧
      |r - (1 / 3 : ℚ)| ≤ 5 / 100000 ∧ ∃ k : ℤ, r = (k : ℚ) / 10000) :=
  ⟨by norm_num, by norm_num [MAX_COORDINATE],
    serialization_rounding (1 / 3) (by norm_num) (by norm_num [MAX_COORDINATE])⟩

/-- C2: whenever two runs (in any two worlds) both succeed in writing the
file, they write byte-identical content, namely the fixed text determined
by the seed, count and scale constants alone. -/
theorem deterministic_output (w₁ w₂ : World) (c₁ c₂ : List Char)
    (h₁ : (runMain w₁).fileWritten = some c₁)
    (h₂ : (runMain w₂).fileWritten = some c₂) :
    c₁ = c₂ ∧ c₁ = savetxtContent (points SEED NUM_POINTS MAX_COORDINATE) := by
  unfold runMain runGen savetxtWrite at h₁ h₂
  cases hb₁ : w₁.writable (parentDir FILE_PATH) <;> rw [hb₁] at h₁ <;> simp at h₁
  cases hb₂ : w₂.writable (parentDir FILE_PATH) <;> rw [hb₂] at h₂ <;> simp at h₂
  subst h₁
  subst h₂
  exact ⟨rfl, rfl⟩

/-- C2 witness: two runs in the all-writable world. -/
theorem deterministic_output_witness :
    (runMain wAll).fileWritten =
      some (savetxtContent (points SEED NUM_POINTS MAX_COORDINATE)) ∧
    savetxtContent (points SEED NUM_POINTS MAX_COORDINATE) =
      savetxtContent (points SEED NUM_POINTS MAX_COORDINATE) :=
  ⟨rfl, (deterministic_output wAll wAll _ _ rfl rfl).1⟩

/-- C3: the file a successful run writes is exactly `NUM_POINTS`
newline-terminated lines: it splits into `NUM_POINTS` lines, and
re-joining those lines each followed by `'\n'` reproduces the file byte
for byte (so there is no header and no trailing metadata). -/
theorem output_line_count :
    (∀ w : World, (runMain w).fileWritten = none ∨
      (runMain w).fileWritten =
        some (savetxtContent (points SEED NUM_POINTS MAX_COORDINATE))) ∧
    (splitNl (savetxtContent (points SEED NUM_POINTS MAX_COORDINATE))).length =
      NUM_POINTS ∧
    savetxtContent (points SEED NUM_POINTS MAX_COORDINATE) =
      ((splitNl (savetxtContent (points SEED NUM_POINTS MAX_COORDINATE))).map
        (fun l => l ++ ['\n'])).flatten := by
  refine ⟨?_, ?_, ?_⟩
  · intro w
    unfold runMain runGen savetxtWrite
    cases hb : w.writable (parentDir FILE_PATH) <;> simp [hb]
  · rw [splitNl_savetxt, List.length_map, points_length]
  · rw [splitNl_savetxt, List.map_map]
    rfl

/-- C4: every line of the output file (for any point count) splits on
single spaces into exactly 3 tokens, each of which parses as a fixed-point
decimal with a nonempty integer part and exactly 4 fractional digits; and
`%.4f` produces such a token for every value in `[0, MAX_COORDINATE)`. -/
theorem output_line_format :
    (∀ (n : Nat) (l : List Char),
        l ∈ splitNl (savetxtContent (points SEED n MAX_COORDINATE)) →
        (splitCh ' ' l).length = 3 ∧
        ∀ t ∈ splitCh ' ' l, (parseFixed4 t).isSome = true) ∧
    (∀ v : ℚ, 0 ≤ v → v < MAX_COORDINATE →
        (parseFixed4 (fmt4 v)).isSome = true) := by
  constructor
  · intro n l hl
    rw [splitNl_savetxt] at hl
    obtain ⟨p, hp, rfl⟩ := List.mem_map.mp hl
    rw [splitCh_renderPoint]
    refine ⟨rfl, ?_⟩
    intro t ht
    rcases List.mem_cons.mp ht with rfl | ht
    · exact parse_fmt4_isSome _
    rcases List.mem_cons.mp ht with rfl | ht
    · exact parse_fmt4_isSome _
    rcases List.mem_cons.mp ht with rfl | ht
    · exact parse_fmt4_isSome _
    · simp at ht
  · intro v h0 hv
    exact parse_fmt4_isSome v

/-- C4 witness: the first line of a 1-point run, and the format of the
concrete in-range value `12345`. -/
theorem output_line_format_witness :
    (splitCh ' '
        ((splitNl (savetxtContent (points SEED 1 MAX_COORDINATE))).headI)).length = 3 ∧
    (parseFixed4 (fmt4 (12345 : ℚ))).isSome = true :=
  ⟨(output_line_format.1 1 _ (by decide)).1,
    output_line_format.2 12345 (by norm_num) (by decide)⟩

/-- C5: the generator draws exactly `n * 3` samples, all in `[0,1)`,
arranged as `n` rows of 3 whose in-order concatenation is exactly the
sample stream; the points are those rows with every sample multiplied by
`MAX_COORDINATE` and nothing else (no sorting, no deduplication); and the
file's lines are exactly the points rendered in generation order (line `i`
holds point `i`). -/
theorem generation_pipeline (n : Nat) :
    (randSamples SEED (n * 3)).length = n * 3 ∧
    (∀ u ∈ randSamples SEED (n * 3), 0 ≤ u ∧ u < 1) ∧
    (points SEED n MAX_COORDINATE).length = n ∧
    ((group3 (randSamples SEED (n * 3))).map tripleList).flatten =
      randSamples SEED (n * 3) ∧
    points SEED n MAX_COORDINATE =
      (group3 (randSamples SEED (n * 3))).map
        (fun p => (p.1 * MAX_COORDINATE, p.2.1 * MAX_COORDINATE,
          p.2.2 * MAX_COORDINATE)) ∧
    splitNl (savetxtContent (points SEED n MAX_COORDINATE)) =
      (points SEED n MAX_COORDINATE).map renderPoint := by
  refine ⟨streamAux_length _ _, streamAux_mem _ _, points_length _ _ _, ?_,
    rfl, splitNl_savetxt _⟩
  exact group3_flatten n _ (by rw [randSamples, streamAux_length]; ring)

/-- C5 witness: the range bound instantiated at the first sample of a
1-point run. -/
theorem generation_pipeline_witness :
    (randSamples SEED (1 * 3)).headI ∈ randSamples SEED (1 * 3) ∧
    (0 ≤ (randSamples SEED (1 * 3)).headI ∧
      (randSamples SEED (1 * 3)).headI < 1) :=
  ⟨by decide, (generation_pipeline 1).2.1 _ (by decide)⟩

/-- C6: on normal completion (exit code 0) the program prints exactly the
single line `100000 points are written to ./data/points.txt`, and the
constants are the fixed values `MAX_COORDINATE = 100000`,
`NUM_POINTS = 100000`, seed `1701` and path `./data/points.txt`. -/
theorem stdout_message (w : World) (h : (runMain w).exitCode = 0) :
    (runMain w).stdout = "100000 points are written to ./data/points.txt\n" ∧
    (runMain w).stdout.data.count '\n' = 1 ∧
    MAX_COORDINATE = 100000 ∧ NUM_POINTS = 100000 ∧ SEED = 1701 ∧
    FILE_PATH = "./data/points.txt" := by
  unfold runMain runGen savetxtWrite at h ⊢
  cases hb : w.writable (parentDir FILE_PATH)
  · rw [hb] at h
    simp at h
  · refine ⟨by decide, by decide, rfl, rfl, rfl, rfl⟩

/-- C6 witness: a successful run in the all-writable world. -/
theorem stdout_message_witness :
    (runMain wAll).exitCode = 0 ∧
    (runMain wAll).stdout = "100000 points are written to ./data/points.txt\n" :=
  ⟨rfl, (stdout_message wAll rfl).1⟩

/-- C7: the run fails exactly when the destination's parent directory
`./data` is not writable/existent; the error is not handled locally — no
file is recorded as written and the process exit code is nonzero (1, the
uncaught-exception exit status) — and there is no other failure mode: the
exit code is always 0 or 1, 0 exactly in the writable case. -/
theorem io_failure_condition (w : World) :
    ((runMain w).exitCode ≠ 0 ↔ w.writable (parentDir FILE_PATH) = false) ∧
    ((runMain w).exitCode ≠ 0 ↔ (runMain w).fileWritten = none) ∧
    ((runMain w).exitCode = 0 ∨ (runMain w).exitCode = 1) ∧
    parentDir FILE_PATH = "./data" := by
  refine ⟨?_, ?_, ?_, by decide⟩ <;>
    unfold runMain runGen savetxtWrite <;>
    cases hb : w.writable (parentDir FILE_PATH) <;> simp [hb]

/-- C8: with point count 0 a successful run writes a file with zero bytes
(hence zero lines) and prints `0 points are written to ./data/points.txt`. -/
theorem zero_points_run (w : World) (h : (runGen w 0).exitCode = 0) :
    (runGen w 0).fileWritten = some [] ∧ splitNl [] = [] ∧
    (runGen w 0).stdout = "0 points are written to ./data/points.txt\n" := by
  cases hb : w.writable (parentDir FILE_PATH)
  · exfalso
    unfold runGen savetxtWrite at h
    rw [hb] at h
    simp at h
  · unfold runGen savetxtWrite
    rw [hb]
    exact ⟨by decide, rfl, by decide⟩

/-- C8 witness: the zero-count run in the all-writable world. -/
theorem zero_points_run_witness :
    (runGen wAll 0).exitCode = 0 ∧ (runGen wAll 0).fileWritten = some [] :=
  ⟨rfl, (zero_points_run wAll rfl).1⟩

/-- C9: the confirmation message is printed only after a successful write:
if the file was not written, standard output is empty. -/
theorem no_output_on_error (w : World) (h : (runMain w).fileWritten = none) :
    (runMain w).stdout = "" := by
  unfold runMain runGen savetxtWrite at h ⊢
  cases hb : w.writable (parentDir FILE_PATH) <;> rw [hb] at h <;> simp at h ⊢

/-- C9 witness: the run in the nothing-writable world. -/
theorem no_output_on_error_witness :
    (runMain wNone).fileWritten = none ∧ (runMain wNone).stdout = "" :=
  ⟨rfl, no_output_on_error wNone rfl⟩

end PointGen
